import Mathlib

/-!
# License completion and packaging (`server/api/license.go`)

A shallow embedding of the handlers `GenerateLicense` and
`GenerateProtectedPublication` and of the helpers they share
(`decodeJsonLicense`, `completeLicense`, `buildKeyCheck`, `encryptFields`,
`getField`, `signLicense`, `encryptKey`).

Go values are pure values here.  A function that mutates `*license.License`
and returns `error` becomes a function returning an `Outcome License`: the
mutated license on success, the error otherwise, or the run-time panic the Go
code raises.  Every caller in the file drops the license once a helper has
failed, so the state of the license on a failing path is not kept.

Packages that `license.go` imports (`crypto`, `license`, `sign`, `epub`, the
Go standard library) are collaborators: what the file needs of them is
collected in the structures `Cipher`, `Env` and `Server`.
-/

namespace LcpServer

/-! ## Bytes and strings -/

/-- One octet. -/
abbrev Byte := Fin 256

/-- A Go `[]byte`; the nil slice and the empty slice are both `[]`. -/
abbrev Bytes := List Byte

/-- The octet of a natural number. -/
def byte (n : Nat) : Byte := ⟨n % 256, Nat.mod_lt n (by decide)⟩

/-- UTF-8 encoding of one code point. -/
def utf8Char (c : Char) : Bytes :=
  let n := c.toNat
  if n < 0x80 then [byte n]
  else if n < 0x800 then [byte (0xC0 + n / 64), byte (0x80 + n % 64)]
  else if n < 0x10000 then
    [byte (0xE0 + n / 4096), byte (0x80 + n / 64 % 64), byte (0x80 + n % 64)]
  else
    [byte (0xF0 + n / 262144), byte (0x80 + n / 4096 % 64), byte (0x80 + n / 64 % 64),
      byte (0x80 + n % 64)]

/-- The bytes of a Go string: `[]byte(s)`, `bytes.NewBufferString(s)`. -/
def stringBytes (s : String) : Bytes :=
  s.toList.foldr (fun c acc => utf8Char c ++ acc) []

/-! ## `encoding/base64`, standard alphabet with padding (RFC 4648) -/

/-- The 64 digits of the standard alphabet. -/
def b64Alphabet : List Char :=
  "ABCDEFGHIJKLMNOPQRSTUVWXYZabcdefghijklmnopqrstuvwxyz0123456789+/".toList

/-- Digit of a sextet. -/
def b64Char (n : Nat) : Char := b64Alphabet.getD n 'A'

/-- Sextet of a digit, if it is one. -/
def b64Index (c : Char) : Option Nat :=
  let i := b64Alphabet.indexOf c
  if i < 64 then some i else none

/-- Encoding of a byte sequence, three octets to four digits, `=` padded. -/
def b64EncodeChars : Bytes → List Char
  | [] => []
  | [a] =>
    let n := a.val * 65536
    [b64Char (n / 262144), b64Char (n / 4096 % 64), '=', '=']
  | [a, b] =>
    let n := a.val * 65536 + b.val * 256
    [b64Char (n / 262144), b64Char (n / 4096 % 64), b64Char (n / 64 % 64), '=']
  | a :: b :: c :: rest =>
    let n := a.val * 65536 + b.val * 256 + c.val
    b64Char (n / 262144) :: b64Char (n / 4096 % 64) :: b64Char (n / 64 % 64) ::
      b64Char (n % 64) :: b64EncodeChars rest

/-- Model of `base64.StdEncoding.EncodeToString`. -/
def EncodeToString (src : Bytes) : String := String.mk (b64EncodeChars src)

/-- Decoding of padded base64 digits; `none` on malformed input. -/
def b64DecodeChars : List Char → Option Bytes
  | [] => some []
  | c0 :: c1 :: c2 :: c3 :: rest =>
    if c3 = '=' then
      if rest ≠ [] then none
      else if c2 = '=' then
        match b64Index c0, b64Index c1 with
        | some i0, some i1 => some [byte ((i0 * 262144 + i1 * 4096) / 65536)]
        | _, _ => none
      else
        match b64Index c0, b64Index c1, b64Index c2 with
        | some i0, some i1, some i2 =>
          let n := i0 * 262144 + i1 * 4096 + i2 * 64
          some [byte (n / 65536), byte (n / 256 % 256)]
        | _, _, _ => none
    else
      match b64Index c0, b64Index c1, b64Index c2, b64Index c3, b64DecodeChars rest with
      | some i0, some i1, some i2, some i3, some tail =>
        let n := i0 * 262144 + i1 * 4096 + i2 * 64 + i3
        some (byte (n / 65536) :: byte (n / 256 % 256) :: byte (n % 256) :: tail)
      | _, _, _, _, _ => none
  | _ => none

/-- Model of `base64.StdEncoding.DecodeString` on text without line breaks. -/
def DecodeString (s : String) : Option Bytes := b64DecodeChars s.toList

/-! ## `strings.Title` on ASCII text -/

/-- Go `isSeparator` for runes up to 0x7F: everything but letters, digits
and the underscore separates words. -/
def isSeparator (r : Char) : Bool :=
  !(r.isDigit || r.isLower || r.isUpper || r = '_')

/-- Walk of `strings.Title`: a rune that follows a separator is upper-cased. -/
def titleChars : Char → List Char → List Char
  | _, [] => []
  | prev, r :: rest =>
    (if isSeparator prev then r.toUpper else r) :: titleChars r rest

/-- The function `strings.Title` for ASCII strings, where it is exact; on
other runes Go consults the Unicode tables, which are not modelled.  The
general results take the title function from `Env`; this instance serves the
concrete runs. -/
def asciiTitle (s : String) : String := String.mk (titleChars ' ' s.toList)

/-! ## Outcomes -/

/-- Result of a Go function with an `error` result: a value, an error, or a
run-time panic that unwinds the handler. -/
inductive Outcome (α : Type) where
  | ok (a : α)
  | error (e : String)
  | panic (msg : String)
deriving DecidableEq, Repr

/-! ## Data model (package `license`, as far as `license.go` reads it) -/

/-- The structure `license.ContentKey`. -/
structure ContentKey where
  Algorithm : String
  Value : Bytes
deriving DecidableEq, Repr

/-- The structure `license.UserKey`. -/
structure UserKey where
  Algorithm : String
  Check : Bytes
  ClearValue : String
  Value : Bytes
deriving DecidableEq, Repr

/-- The structure `license.Encryption`. -/
structure Encryption where
  ContentKey : ContentKey
  UserKey : UserKey
deriving DecidableEq, Repr

/-- The structure `license.Link`; `Typ` is the Go field `Type`. -/
structure Link where
  Href : String
  Typ : String
deriving DecidableEq, Repr

/-- The structure `license.UserInfo`, seen the way `reflect` sees it:
`Strings` lists the exported string fields by Go field name with their
values, `Encrypted` is the `[]string` field of that name.  The declaration is
not among the sources at hand, so the set of string fields is left open. -/
structure UserInfo where
  Strings : List (String × String)
  Encrypted : List String
deriving DecidableEq, Repr

/-- The structure `sign.Signature`. -/
structure Signature where
  Algorithm : String
  Certificate : Bytes
  Value : Bytes
deriving DecidableEq, Repr

/-- The structure `license.License`.  `Links` is `none` for the nil map.
`Other` stands for every field that `license.go` never names. -/
structure License where
  Id : String
  ContentId : String
  Encryption : Encryption
  Links : Option (List (String × Link))
  User : UserInfo
  Signature : Option Signature
  Other : String
deriving DecidableEq, Repr

/-! ## Collaborators -/

/-- Modelled from the spec: the function `crypto.Encrypt` and its inverse
(package `crypto` is not among the sources at hand).  Section 4.1: a
symmetric cipher that draws a fresh initialization vector per call and fails
with a `CryptoError` on an invalid key length.  `encrypt iv key plaintext` is the
ciphertext written to the output buffer, `decrypt key ciphertext` the
decryption. -/
structure Cipher where
  keyLenOk : Nat → Bool
  encrypt : Bytes → Bytes → Bytes → Bytes
  decrypt : Bytes → Bytes → Option Bytes

/-- The call `crypto.Encrypt(key, in, &out)`: the bytes left in `out`, or
the error.  Nothing is written when the key is refused. -/
def Cipher.Encrypt (c : Cipher) (iv key plaintext : Bytes) : Except String Bytes :=
  if c.keyLenOk key.length then .ok (c.encrypt iv key plaintext)
  else .error "crypto: invalid key size"

/-- The cipher law `decrypt(k, encrypt(k, p)) = p`. -/
def Cipher.Lawful (c : Cipher) : Prop :=
  ∀ iv key plaintext, c.keyLenOk key.length = true →
    c.decrypt key (c.encrypt iv key plaintext) = some plaintext

/-- A `tls.Certificate`. -/
abbrev Certificate := Bytes

/-- A `sign.Signer`. -/
abbrev Signer := Bytes

/-- An archive as a list of named entries. -/
abbrev Archive := List (String × Bytes)

/-- Library functions and packages that `license.go` calls.
`iv n` is the initialization vector drawn by the n-th cipher call of the
request; `Sum256` is `sha256.Sum256`, `Title` is `strings.Title`, `Prepare`
is `license.Prepare`, `NewSigner` and `Sign` are those of package `sign`,
`Decode` and `Encode` are the JSON decoder and encoder for a license,
`zipNewReader` is `zip.NewReader` and `epubRead` is `epub.Read`. -/
structure Env where
  cipher : Cipher
  iv : Nat → Bytes
  Sum256 : Bytes → Bytes
  Title : String → String
  Prepare : License → License
  NewSigner : Certificate → Except String Signer
  Sign : Signer → License → Except String Signature
  Decode : String → Except String License
  Encode : License → Bytes
  zipNewReader : Bytes → Except String Archive
  epubRead : Archive → Except String Archive

/-- An entry of the content index (`s.Index().Get`). -/
structure Content where
  EncryptionKey : Bytes
  Location : String
deriving DecidableEq, Repr

/-- An item of the content store (`s.Store().Get`): the result of
`Contents()` read to its end, and `PublicUrl()`. -/
structure Item where
  Contents : Except String Bytes
  PublicUrl : String

/-- The interface `Server` over a license store of type `σ`.
`LicensesAdd` is `s.Licenses().Add`: the store after the call and the error,
if any. -/
structure Server (σ : Type) where
  IndexGet : String → Except String Content
  StoreGet : String → Except String Item
  LicensesAdd : σ → License → σ × Option String
  Certificate : Certificate

/-! ## `reflect` on the user profile -/

/-- A `reflect.Value` obtained from `FieldByName` on the user profile. -/
inductive Value where
  | invalid
  | string (name : String) (s : String)
  | other (name : String) (typ : String)
deriving DecidableEq, Repr

/-- The method `String` of `reflect.Value`: the string of a string field; for the zero
Value and for other kinds a description, never a panic. -/
def Value.Str : Value → String
  | .invalid => "<invalid Value>"
  | .string _ s => s
  | .other _ typ => "<" ++ typ ++ " Value>"

/-- Assignment to the first field of the given name. -/
def setString (name v : String) : List (String × String) → List (String × String)
  | [] => []
  | (k, x) :: rest =>
    if k = name then (k, v) :: rest else (k, x) :: setString name v rest

/-- The call `field.Set(reflect.ValueOf(s))` for a Go string `s`: it panics
on the zero Value and on a field that is not a string. -/
def Value.Set (field : Value) (u : UserInfo) (s : String) : Outcome UserInfo :=
  match field with
  | .invalid => .panic "reflect: call of reflect.Value.Set on zero Value"
  | .string name _ => .ok { u with Strings := setString name s u.Strings }
  | .other _ typ =>
    .panic ("reflect.Set: value of type string is not assignable to type " ++ typ)

/-! ## The functions of `license.go` -/

/-- The function `getField` (lines 215-218). -/
def getField (env : Env) (u : UserInfo) (field : String) : Value :=
  let name := env.Title field
  if name = "Encrypted" then .other name "[]string"
  else
    match u.Strings.lookup name with
    | some s => .string name s
    | none => .invalid

/-- The function `encryptKey` (lines 234-239): the error of the cipher is
dropped and the buffer returned as it is. -/
def encryptKey (env : Env) (n : Nat) (key kek : Bytes) : Bytes :=
  match env.cipher.Encrypt (env.iv n) kek key with
  | .ok out => out
  | .error _ => []

/-- The loop of `encryptFields` (lines 203-211) over the names still to
visit; `n` counts the cipher calls made so far. -/
def encryptFieldsLoop (env : Env) (key : Bytes) : List String → Nat → UserInfo → Outcome UserInfo
  | [], _, u => .ok u
  | toEncrypt :: rest, n, u =>
    let field := getField env u toEncrypt
    match env.cipher.Encrypt (env.iv n) key (stringBytes field.Str) with
    | .error e => .error e
    | .ok out =>
      match field.Set u (EncodeToString out) with
      | .ok u1 => encryptFieldsLoop env key rest (n + 1) u1
      | .error e => .error e
      | .panic msg => .panic msg

/-- The function `encryptFields` (lines 202-213). -/
def encryptFields (env : Env) (n : Nat) (l : License) (key : Bytes) : Outcome License :=
  match encryptFieldsLoop env key l.User.Encrypted n l.User with
  | .ok u => .ok { l with User := u }
  | .error e => .error e
  | .panic msg => .panic msg

/-- The function `buildKeyCheck` (lines 192-200). -/
def buildKeyCheck (env : Env) (n : Nat) (l : License) (key : Bytes) : Outcome License :=
  match env.cipher.Encrypt (env.iv n) key (stringBytes l.Id) with
  | .error e => .error e
  | .ok out =>
    .ok { l with Encryption := { l.Encryption with
            UserKey := { l.Encryption.UserKey with Check := out } } }

/-- The function `signLicense` (lines 220-232). -/
def signLicense (env : Env) (l : License) (cert : Certificate) : Outcome License :=
  match env.NewSigner cert with
  | .error e => .error e
  | .ok sig =>
    match env.Sign sig l with
    | .error e => .error e
    | .ok res => .ok { l with Signature := some res }

/-- Lines 161-170 of `completeLicense`: the user key and the license with
the field it came from cleared. -/
def resolveUserKey (env : Env) (l : License) : Bytes × License :=
  if l.Encryption.UserKey.Value.length > 0 then
    (l.Encryption.UserKey.Value,
      { l with Encryption := { l.Encryption with
          UserKey := { l.Encryption.UserKey with Value := [] } } })
  else
    (env.Sum256 (stringBytes l.Encryption.UserKey.ClearValue),
      { l with Encryption := { l.Encryption with
          UserKey := { l.Encryption.UserKey with ClearValue := "" } } })

/-- Lines 172-175 of `completeLicense`: the content key wrapped under the
user key and the two algorithm identifiers. -/
def wrapContentKey (env : Env) (c : Content) (encryptionKey : Bytes) (l : License) : License :=
  { l with Encryption :=
      { ContentKey :=
          { Algorithm := "http://www.w3.org/2001/04/xmlenc#aes256-cbc"
            Value := encryptKey env 0 c.EncryptionKey encryptionKey }
        UserKey :=
          { l.Encryption.UserKey with Algorithm := "http://www.w3.org/2001/04/xmlenc#sha256" } } }

/-- The function `completeLicense` (lines 152-190). -/
def completeLicense {σ : Type} (env : Env) (l : License) (key : String) (s : Server σ) :
    Outcome License :=
  match s.IndexGet key with
  | .error e => .error e
  | .ok c =>
    let l1 := { env.Prepare l with ContentId := key }
    let encryptionKey := (resolveUserKey env l1).1
    let l2 := wrapContentKey env c encryptionKey (resolveUserKey env l1).2
    match encryptFields env 1 l2 encryptionKey with
    | .error e => .error e
    | .panic msg => .panic msg
    | .ok l3 =>
      match buildKeyCheck env (1 + l2.User.Encrypted.length) l3 encryptionKey with
      | .error e => .error e
      | .panic msg => .panic msg
      | .ok l4 => signLicense env l4 s.Certificate

/-! ## The two handlers -/

/-- What a handler reads of the `http.Request`: the route variable `key`,
the values of the `Content-Type` header, the form value `data` and the
body. -/
structure Request where
  key : String
  contentType : List String
  postFormData : String
  body : String
deriving DecidableEq, Repr

/-- What a handler leaves on the `http.ResponseWriter`: an `http.Error`
with its status, a license document, a packaged publication (both with
status 200), or nothing because the handler panicked. -/
inductive Reply where
  | error (status : Nat) (msg : String)
  | license (contentType contentDisposition : String) (body : Bytes)
  | publication (contentType contentDisposition : String) (archive : Archive)
  | aborted (msg : String)
deriving DecidableEq, Repr

/-- Effect of serving one request: the license store afterwards, the
arguments of the calls of `Licenses().Add` in order, and the reply. -/
structure Served (σ : Type) where
  licenses : σ
  added : List License
  reply : Reply

/-- The zero value of `license.License` (`var lic license.License`). -/
def zeroLicense : License :=
  { Id := "", ContentId := ""
    Encryption :=
      { ContentKey := { Algorithm := "", Value := [] }
        UserKey := { Algorithm := "", Check := [], ClearValue := "", Value := [] } }
    Links := none
    User := { Strings := [], Encrypted := [] }
    Signature := none
    Other := "" }

/-- The function `decodeJsonLicense` (lines 137-150): the JSON document is
the form value `data` for a form-encoded request and the body otherwise. -/
def decodeJsonLicense (env : Env) (r : Request) : Except String License :=
  if r.contentType.length > 0 ∧ r.contentType.head? = some "application/x-www-form-urlencoded" then
    env.Decode r.postFormData
  else
    env.Decode r.body

/-- The function `GenerateLicense` (lines 31-64). -/
def GenerateLicense {σ : Type} (env : Env) (s : Server σ) (store : σ) (r : Request) : Served σ :=
  match decodeJsonLicense env r with
  | .error e => { licenses := store, added := [], reply := .error 400 e }
  | .ok lic0 =>
    match completeLicense env lic0 r.key s with
    | .error e => { licenses := store, added := [], reply := .error 500 e }
    | .panic msg => { licenses := store, added := [], reply := .aborted msg }
    | .ok lic =>
      match s.LicensesAdd store lic with
      | (store1, some e) => { licenses := store1, added := [lic], reply := .error 500 e }
      | (store1, none) =>
        { licenses := store1, added := [lic]
          reply := .license "application/vnd.readium.lcp.license.1-0+json"
            "attachment; filename=\"license.lcpl\""
            (env.Encode { lic with Encryption := { lic.Encryption with
              UserKey := { lic.Encryption.UserKey with Check := [] } } }) }

/-- The assignment `m[name] = link` on a non-nil map. -/
def setLink (name : String) (link : Link) : List (String × Link) → List (String × Link)
  | [] => [(name, link)]
  | (k, x) :: rest =>
    if k = name then (k, link) :: rest else (k, x) :: setLink name link rest

/-- Lines 117-118 of `GenerateProtectedPublication`: the publication link
and the content id written into the completed license.  Assignment to an
entry of a nil map panics. -/
def attachPublication (lic : License) (item : Item) (key : String) : Outcome License :=
  match lic.Links with
  | none => .panic "assignment to entry in nil map"
  | some links =>
    .ok { lic with
      Links := some (setLink "publication"
        { Href := item.PublicUrl, Typ := "application/epub+zip" } links)
      ContentId := key }

/-- Lines 80-108 of `GenerateProtectedPublication`: the store item, the
index entry and the container opened as an archive, or the first error. -/
def openPublication {σ : Type} (env : Env) (s : Server σ) (key : String) :
    Except String (Item × Content × Archive) :=
  match s.StoreGet key with
  | .error e => .error e
  | .ok item =>
    match s.IndexGet key with
    | .error e => .error e
    | .ok content =>
      match item.Contents with
      | .error e => .error e
      | .ok b =>
        match env.zipNewReader b with
        | .error e => .error e
        | .ok zr =>
          match env.epubRead zr with
          | .error e => .error e
          | .ok ep => .ok (item, content, ep)

/-- Modelled from the spec: the calls `ep.Add` and `ep.Write` of package
`epub`, which is not among the sources at hand.  Section 4.7: the archive is
emitted with every entry it had, plus the new entry. -/
def epubAddWrite (ep : Archive) (path : String) (data : Bytes) : Archive :=
  ep ++ [(path, data)]

/-- The function `GenerateProtectedPublication` (lines 66-135). -/
def GenerateProtectedPublication {σ : Type} (env : Env) (s : Server σ) (store : σ)
    (r : Request) : Served σ :=
  match decodeJsonLicense env r with
  | .error e => { licenses := store, added := [], reply := .error 400 e }
  | .ok lic0 =>
    match openPublication env s r.key with
    | .error e => { licenses := store, added := [], reply := .error 500 e }
    | .ok (item, content, ep) =>
      match completeLicense env lic0 r.key s with
      | .error e => { licenses := store, added := [], reply := .error 500 e }
      | .panic msg => { licenses := store, added := [], reply := .aborted msg }
      | .ok lic1 =>
        match attachPublication lic1 item r.key with
        | .error e => { licenses := store, added := [], reply := .error 500 e }
        | .panic msg => { licenses := store, added := [], reply := .aborted msg }
        | .ok lic =>
          match s.LicensesAdd store lic with
          | (store1, some e) => { licenses := store1, added := [lic], reply := .error 500 e }
          | (store1, none) =>
            { licenses := store1, added := [lic]
              reply := .publication "application/epub+zip"
                ("attachment; filename=\"" ++ content.Location ++ "\"")
                (epubAddWrite ep "META-INF/license.lcpl" (env.Encode lic)) }

/-! ## A concrete environment for the runs below -/

/-- A small cipher that obeys the cipher law: keys of 16, 24 or 32 bytes,
the first byte of the initialization vector is prepended and every plaintext
byte is shifted by it and by the sum of the key bytes. -/
def demoCipher : Cipher :=
  { keyLenOk := fun n => n == 16 || n == 24 || n == 32
    encrypt := fun iv key p => iv.headD 0 :: p.map (fun b => b + key.sum + iv.headD 0)
    decrypt := fun key c =>
      match c with
      | [] => none
      | v :: rest => some (rest.map (fun b => b - v - key.sum)) }

/-- An environment over `demoCipher`: a 32-byte stand-in for the digest, the
ASCII title function, a `Prepare` that assigns the id and makes the link map
non-nil, a signer that needs a non-empty certificate, a decoder that yields
the given license for a non-empty document, and an encoder that writes the
id and the link names. -/
def demoEnv (decoded : License) : Env :=
  { cipher := demoCipher
    iv := fun n => [byte (n + 1)]
    Sum256 := fun bs => List.replicate 32 bs.sum
    Title := asciiTitle
    Prepare := fun l => { l with Id := "lic-1", Links := some (l.Links.getD []) }
    NewSigner := fun cert => if cert = [] then .error "sign: no certificate" else .ok cert
    Sign := fun sig l =>
      .ok { Algorithm := "demo", Certificate := sig, Value := stringBytes l.Id }
    Decode := fun doc => if doc = "" then .error "EOF" else .ok decoded
    Encode := fun l =>
      stringBytes (l.Id ++ ((l.Links.getD []).map (fun kv => " " ++ kv.1)).foldr (· ++ ·) "")
    zipNewReader := fun b =>
      if b = [] then .error "zip: not a valid zip file" else .ok [("mimetype", b)]
    epubRead := fun zr => .ok zr }

/-- A 16-byte key. -/
def demoKey : Bytes := List.replicate 16 1

/-- A server that knows the content `c1`, with a list of licenses as its
license store. -/
def demoServer : Server (List License) :=
  { IndexGet := fun k =>
      if k = "c1" then .ok { EncryptionKey := [7, 8, 9], Location := "c1.epub" }
      else .error "index: not found"
    StoreGet := fun k =>
      if k = "c1" then .ok { Contents := .ok [80, 75], PublicUrl := "http://example.com/c1.epub" }
      else .error "store: not found"
    LicensesAdd := fun st l => (st ++ [l], none)
    Certificate := [1] }

/-- A request license with a user profile and the given key material and
flagged names. -/
def demoLicense (value : Bytes) (clearValue : String) (encrypted : List String) : License :=
  { zeroLicense with
    Encryption := { zeroLicense.Encryption with
      UserKey := { zeroLicense.Encryption.UserKey with Value := value, ClearValue := clearValue } }
    User := { Strings := [("Id", "u1"), ("Email", "user@example.com"), ("Name", "Ann")],
              Encrypted := encrypted } }

/-- A request for the content `c1` with a JSON body. -/
def demoRequest : Request :=
  { key := "c1", contentType := ["application/json"], postFormData := "", body := "doc" }

/-! ## Lemmas on the library models -/

/-- The sextet of the digit of a sextet is that sextet. -/
theorem b64Index_b64Char (n : Nat) (h : n < 64) : b64Index (b64Char n) = some n := by
  interval_cases n <;> rfl

/-- No digit of the alphabet is the padding character. -/
theorem b64Char_ne_pad (n : Nat) (h : n < 64) : b64Char n ≠ '=' := by
  interval_cases n <;> decide

/-- An octet is determined by its value modulo 256. -/
theorem byte_val (a : Byte) (n : Nat) (h : n % 256 = a.val) : byte n = a := by
  apply Fin.ext
  simpa [byte] using h

/-- Decoding what was encoded gives the bytes back. -/
theorem b64_roundtrip (bs : Bytes) : b64DecodeChars (b64EncodeChars bs) = some bs := by
  induction bs using b64EncodeChars.induct with
  | case1 => rfl
  | case2 a =>
    have ha := a.isLt
    simp only [b64EncodeChars, b64DecodeChars]
    rw [b64Index_b64Char _ (by omega), b64Index_b64Char _ (by omega)]
    simp
    exact byte_val _ _ (by omega)
  | case3 a b =>
    have ha := a.isLt
    have hb := b.isLt
    simp only [b64EncodeChars, b64DecodeChars]
    rw [b64Index_b64Char _ (by omega), b64Index_b64Char _ (by omega),
      b64Index_b64Char _ (by omega)]
    simp [b64Char_ne_pad _ (show (a.val * 65536 + b.val * 256) / 64 % 64 < 64 by omega)]
    exact ⟨byte_val _ _ (by omega), byte_val _ _ (by omega)⟩
  | case4 a b c rest ih =>
    have ha := a.isLt
    have hb := b.isLt
    have hc := c.isLt
    simp only [b64EncodeChars, b64DecodeChars]
    rw [b64Index_b64Char _ (by omega), b64Index_b64Char _ (by omega),
      b64Index_b64Char _ (by omega), b64Index_b64Char _ (by omega), ih]
    simp [b64Char_ne_pad _ (show (a.val * 65536 + b.val * 256 + c.val) % 64 < 64 by omega)]
    exact ⟨byte_val _ _ (by omega), byte_val _ _ (by omega), byte_val _ _ (by omega)⟩

/-- Round trip of the base64 model on strings. -/
theorem DecodeString_EncodeToString (bs : Bytes) : DecodeString (EncodeToString bs) = some bs := by
  simp [DecodeString, EncodeToString, b64_roundtrip]

/-- The concrete cipher obeys the cipher law. -/
theorem demoCipher_lawful : demoCipher.Lawful := by
  intro iv key p _
  simp [demoCipher, Function.comp_def]

/-! ## Lemmas on the completion pipeline -/

/-- The cipher call succeeds exactly on an accepted key length, with the
ciphertext as its output. -/
theorem Encrypt_ok_iff (c : Cipher) (iv key p out : Bytes) :
    c.Encrypt iv key p = .ok out ↔ c.keyLenOk key.length = true ∧ out = c.encrypt iv key p := by
  unfold Cipher.Encrypt
  by_cases hk : c.keyLenOk key.length = true
  · simp [hk, eq_comm]
  · simp [hk]

/-- The cipher call fails exactly on a refused key length. -/
theorem Encrypt_error_iff (c : Cipher) (iv key p : Bytes) (e : String) :
    c.Encrypt iv key p = .error e ↔
      c.keyLenOk key.length = false ∧ e = "crypto: invalid key size" := by
  unfold Cipher.Encrypt
  by_cases hk : c.keyLenOk key.length = true
  · simp [hk]
  · simp [hk, eq_comm]

/-- The user key chosen by lines 161-170. -/
theorem resolveUserKey_fst (env : Env) (p : License) :
    (resolveUserKey env p).1 =
      if p.Encryption.UserKey.Value.length > 0 then p.Encryption.UserKey.Value
      else env.Sum256 (stringBytes p.Encryption.UserKey.ClearValue) := by
  unfold resolveUserKey
  split <;> rfl

/-- The license after lines 161-170: the raw key is empty in both branches,
the passphrase is cleared only in the else-branch. -/
theorem resolveUserKey_snd (env : Env) (p : License) :
    (resolveUserKey env p).2 =
      { p with Encryption := { p.Encryption with
          UserKey := { p.Encryption.UserKey with
            Value := []
            ClearValue :=
              if p.Encryption.UserKey.Value.length > 0 then p.Encryption.UserKey.ClearValue
              else "" } } } := by
  unfold resolveUserKey
  split
  · rfl
  · rename_i h
    have h0 : p.Encryption.UserKey.Value = [] := by
      cases hv : p.Encryption.UserKey.Value with
      | nil => rfl
      | cons a t => simp [hv] at h
    simp [h0]

/-- The loop never changes the list of flagged names. -/
theorem encryptFieldsLoop_encrypted (env : Env) (key : Bytes) (names : List String) :
    ∀ (n : Nat) (u u1 : UserInfo), encryptFieldsLoop env key names n u = .ok u1 →
      u1.Encrypted = u.Encrypted := by
  induction names with
  | nil => intro n u u1 h; simp [encryptFieldsLoop] at h; rw [← h]
  | cons name rest ih =>
    intro n u u1 h
    simp only [encryptFieldsLoop] at h
    split at h
    · simp at h
    · split at h
      · rename_i u2 hset
        have := ih _ _ _ h
        rw [this]
        unfold Value.Set at hset
        split at hset <;> simp at hset
        rw [← hset]
      · simp at h
      · simp at h

/-- What a successful `completeLicense` has done: every step succeeded and
the license returned is built from the prepared request as shown. -/
theorem completeLicense_ok {σ : Type} (env : Env) (l : License) (key : String) (s : Server σ)
    (r : License) (h : completeLicense env l key s = .ok r) :
    ∃ c u sig res,
      s.IndexGet key = .ok c ∧
      env.cipher.keyLenOk
        (resolveUserKey env { env.Prepare l with ContentId := key }).1.length = true ∧
      encryptFieldsLoop env (resolveUserKey env { env.Prepare l with ContentId := key }).1
        (env.Prepare l).User.Encrypted 1 (env.Prepare l).User = .ok u ∧
      env.NewSigner s.Certificate = .ok sig ∧
      env.Sign sig { r with Signature := (env.Prepare l).Signature } = .ok res ∧
      r =
        { Id := (env.Prepare l).Id
          ContentId := key
          Encryption :=
            { ContentKey :=
                { Algorithm := "http://www.w3.org/2001/04/xmlenc#aes256-cbc"
                  Value := env.cipher.encrypt (env.iv 0)
                    (resolveUserKey env { env.Prepare l with ContentId := key }).1
                    c.EncryptionKey }
              UserKey :=
                { Algorithm := "http://www.w3.org/2001/04/xmlenc#sha256"
                  Check := env.cipher.encrypt
                    (env.iv (1 + (env.Prepare l).User.Encrypted.length))
                    (resolveUserKey env { env.Prepare l with ContentId := key }).1
                    (stringBytes (env.Prepare l).Id)
                  ClearValue :=
                    if (env.Prepare l).Encryption.UserKey.Value.length > 0 then
                      (env.Prepare l).Encryption.UserKey.ClearValue
                    else ""
                  Value := [] } }
          Links := (env.Prepare l).Links
          User := u
          Signature := some res
          Other := (env.Prepare l).Other } := by
  unfold completeLicense at h
  split at h
  · simp at h
  · rename_i c hc
    simp only at h
    split at h
    · simp at h
    · simp at h
    · rename_i l3 h3
      split at h
      · simp at h
      · simp at h
      · rename_i l4 h4
        unfold encryptFields at h3
        split at h3
        · rename_i u hu
          simp only [Outcome.ok.injEq] at h3
          unfold buildKeyCheck at h4
          split at h4
          · simp at h4
          · rename_i out hout
            simp only [Outcome.ok.injEq] at h4
            rw [Encrypt_ok_iff] at hout
            unfold signLicense at h
            split at h
            · simp at h
            · rename_i sig hsig
              split at h
              · simp at h
              · rename_i res hres
                simp only [Outcome.ok.injEq] at h
                obtain ⟨hk, hout2⟩ := hout
                subst h3
                subst hout2
                subst h4
                subst h
                refine ⟨c, u, sig, res, hc, hk, ?_, hsig, ?_, ?_⟩
                · simpa [wrapContentKey, resolveUserKey_snd] using hu
                · simpa [wrapContentKey, resolveUserKey_snd] using hres
                · simp [wrapContentKey, resolveUserKey_snd, encryptKey, Cipher.Encrypt, hk]
        · simp at h3
        · simp at h3

/-! ## Lemmas on the loop of `encryptFields` -/

/-- Reading a field after an assignment to the field `t`. -/
theorem lookup_setString (t s f : String) (L : List (String × String)) :
    (setString t s L).lookup f =
      if f = t then (L.lookup t).map (fun _ => s) else L.lookup f := by
  induction L with
  | nil => simp [setString, List.lookup]
  | cons kv rest ih =>
    obtain ⟨k, x⟩ := kv
    by_cases hk : k = t
    · subst hk
      by_cases hf : f = k
      · subst hf
        simp [setString, List.lookup]
      · have hf2 : (f == k) = false := by simpa using hf
        simp [setString, List.lookup, hf, hf2]
    · by_cases hf : f = t
      · subst hf
        have hf2 : (f == k) = false := by simpa using (Ne.symm hk)
        simp [setString, List.lookup, hk, hf2, ih]
      · by_cases hfk : f = k
        · subst hfk
          simp [setString, List.lookup, hk, hf]
        · have hf2 : (f == k) = false := by simpa using hfk
          simp [setString, List.lookup, hk, hf, hf2, ih]

/-- With a refused key the loop fails at the first name, if there is one. -/
theorem encryptFieldsLoop_bad_key (env : Env) (key : Bytes) (names : List String) (n : Nat)
    (u : UserInfo) (hk : env.cipher.keyLenOk key.length = false) :
    encryptFieldsLoop env key names n u =
      if names = [] then .ok u else .error "crypto: invalid key size" := by
  cases names with
  | nil => simp [encryptFieldsLoop]
  | cons name rest => simp [encryptFieldsLoop, Cipher.Encrypt, hk]

/-- The loop over pairwise distinct names of string fields: each named
field ends as the base64 text of the ciphertext of its old value, every
other field keeps its value. -/
theorem encryptFieldsLoop_spec (env : Env) (key : Bytes) (names : List String) :
    ∀ (n : Nat) (u u1 : UserInfo),
      (∀ name ∈ names, env.Title name ≠ "Encrypted" ∧
        ∃ v, u.Strings.lookup (env.Title name) = some v) →
      (names.map env.Title).Nodup →
      encryptFieldsLoop env key names n u = .ok u1 →
      ∀ f,
        (f ∈ names.map env.Title →
          env.cipher.keyLenOk key.length = true ∧
          ∃ v iv, u.Strings.lookup f = some v ∧
            u1.Strings.lookup f =
              some (EncodeToString (env.cipher.encrypt iv key (stringBytes v)))) ∧
        (f ∉ names.map env.Title → u1.Strings.lookup f = u.Strings.lookup f) := by
  induction names with
  | nil =>
    intro n u u1 _ _ h f
    simp [encryptFieldsLoop] at h
    subst h
    simp
  | cons name rest ih =>
    intro n u u1 hstr hnd h f
    obtain ⟨hne, v, hv⟩ := hstr name (List.mem_cons_self _ _)
    simp only [List.map_cons, List.nodup_cons] at hnd
    obtain ⟨hnotin, hnd2⟩ := hnd
    have hget : getField env u name = .string (env.Title name) v := by
      simp [getField, hne, hv]
    simp only [encryptFieldsLoop, hget, Value.Str, Value.Set] at h
    split at h
    · simp at h
    · rename_i out hout
      rw [Encrypt_ok_iff] at hout
      obtain ⟨hk, hout2⟩ := hout
      subst hout2
      have hstr2 : ∀ name2 ∈ rest, env.Title name2 ≠ "Encrypted" ∧
          ∃ v2, List.lookup (env.Title name2)
            (setString (env.Title name)
              (EncodeToString (env.cipher.encrypt (env.iv n) key (stringBytes v))) u.Strings)
            = some v2 := by
        intro name2 h2
        obtain ⟨hne2, v2, hv2⟩ := hstr name2 (List.mem_cons_of_mem _ h2)
        refine ⟨hne2, v2, ?_⟩
        have hdiff : env.Title name2 ≠ env.Title name := by
          intro heq
          exact hnotin (heq ▸ List.mem_map_of_mem _ h2)
        rw [lookup_setString, if_neg hdiff, hv2]
      have := ih (n + 1) _ u1 hstr2 hnd2 h f
      obtain ⟨ih1, ih2⟩ := this
      simp only [lookup_setString] at ih1 ih2
      constructor
      · intro hf
        simp only [List.map_cons, List.mem_cons] at hf
        rcases hf with hf | hf
        · subst hf
          refine ⟨hk, v, env.iv n, hv, ?_⟩
          rw [ih2 hnotin]
          simp [hv]
        · have hdiff : f ≠ env.Title name := by
            intro heq
            exact hnotin (heq ▸ hf)
          obtain ⟨hk2, v2, iv2, h21, h22⟩ := ih1 hf
          rw [if_neg hdiff] at h21
          exact ⟨hk2, v2, iv2, h21, h22⟩
      · intro hf
        simp only [List.map_cons, List.mem_cons, not_or] at hf
        rw [ih2 hf.2, if_neg hf.1]

/-! ## The claims -/

/-- C1, evaluated at a request that supplies both a raw user key and a
passphrase: `completeLicense` succeeds, the raw key is cleared, and the
passphrase is still in `Encryption.UserKey.ClearValue` of the license that
the handlers then persist and serialize. -/
theorem completeLicense_both_keys_keeps_passphrase :
    ∃ r, completeLicense (demoEnv zeroLicense) (demoLicense demoKey "secret" []) "c1"
        demoServer = .ok r ∧
      r.Encryption.UserKey.Value = [] ∧
      r.Encryption.UserKey.ClearValue = "secret" :=
  ⟨_, rfl, rfl, rfl⟩

/-- C2: when `completeLicense` succeeds, the user key is the raw
`Encryption.UserKey.Value` if that is non-empty and the SHA-256 digest of
`Encryption.UserKey.ClearValue` otherwise (both read from the license as
`license.Prepare` hands it back, line 158), `Encryption.ContentKey.Value` is
the ciphertext of the content item's `EncryptionKey` under that key, and
under the cipher law it decrypts with that key to the content key. -/
theorem completeLicense_wraps_content_key {σ : Type} (env : Env) (l : License) (key : String)
    (s : Server σ) (r : License) (hlaw : env.cipher.Lawful)
    (h : completeLicense env l key s = .ok r) :
    ∃ c userKey,
      s.IndexGet key = .ok c ∧
      userKey = (resolveUserKey env { env.Prepare l with ContentId := key }).1 ∧
      userKey =
        (if (env.Prepare l).Encryption.UserKey.Value.length > 0 then
          (env.Prepare l).Encryption.UserKey.Value
        else env.Sum256 (stringBytes (env.Prepare l).Encryption.UserKey.ClearValue)) ∧
      r.Encryption.ContentKey.Value = env.cipher.encrypt (env.iv 0) userKey c.EncryptionKey ∧
      env.cipher.decrypt userKey r.Encryption.ContentKey.Value = some c.EncryptionKey := by
  obtain ⟨c, u, sig, res, hc, hk, -, -, -, hr⟩ := completeLicense_ok env l key s r h
  refine ⟨c, _, hc, rfl, ?_, ?_, ?_⟩
  · rw [resolveUserKey_fst]
  · rw [hr]
  · rw [hr]
    exact hlaw _ _ _ hk

/-- Witness for C2: the passphrase `hello` on the content `c1`. -/
theorem completeLicense_wraps_content_key_witness :
    ∃ r, completeLicense (demoEnv zeroLicense) (demoLicense [] "hello" []) "c1" demoServer
        = .ok r ∧
      demoCipher.decrypt ((demoEnv zeroLicense).Sum256 (stringBytes "hello"))
        r.Encryption.ContentKey.Value = some [7, 8, 9] := by
  refine ⟨_, rfl, ?_⟩
  obtain ⟨c, k, hc, -, hk, -, hd⟩ :=
    completeLicense_wraps_content_key (demoEnv zeroLicense) (demoLicense [] "hello" []) "c1"
      demoServer _ demoCipher_lawful rfl
  have hc2 : c = { EncryptionKey := [7, 8, 9], Location := "c1.epub" } := by
    simpa [demoServer] using hc.symm
  subst hc2
  rw [hk] at hd
  exact hd

/-- C3: when `completeLicense` succeeds, `Encryption.UserKey.Check` is the
ciphertext of the completed license's own `Id` under the user key that also
wraps the content key, and under the cipher law it decrypts with that key to
the `Id` of the license as returned. -/
theorem completeLicense_key_check {σ : Type} (env : Env) (l : License) (key : String)
    (s : Server σ) (r : License) (hlaw : env.cipher.Lawful)
    (h : completeLicense env l key s = .ok r) :
    ∃ c userKey n,
      s.IndexGet key = .ok c ∧
      userKey = (resolveUserKey env { env.Prepare l with ContentId := key }).1 ∧
      r.Encryption.ContentKey.Value = env.cipher.encrypt (env.iv 0) userKey c.EncryptionKey ∧
      r.Encryption.UserKey.Check = env.cipher.encrypt (env.iv n) userKey (stringBytes r.Id) ∧
      env.cipher.decrypt userKey r.Encryption.UserKey.Check = some (stringBytes r.Id) := by
  obtain ⟨c, u, sig, res, hc, hk, -, -, -, hr⟩ := completeLicense_ok env l key s r h
  refine ⟨c, _, 1 + (env.Prepare l).User.Encrypted.length, hc, rfl, ?_, ?_, ?_⟩
  · rw [hr]
  · rw [hr]
  · rw [hr]
    exact hlaw _ _ _ hk

/-- Witness for C3: the check of the license issued for the passphrase
`hello` decrypts to its id `lic-1`. -/
theorem completeLicense_key_check_witness :
    ∃ r, completeLicense (demoEnv zeroLicense) (demoLicense [] "hello" ["email"]) "c1"
        demoServer = .ok r ∧
      demoCipher.decrypt
        (resolveUserKey (demoEnv zeroLicense)
          { (demoEnv zeroLicense).Prepare (demoLicense [] "hello" ["email"]) with
            ContentId := "c1" }).1
        r.Encryption.UserKey.Check = some (stringBytes r.Id) := by
  refine ⟨_, rfl, ?_⟩
  obtain ⟨c, k, n, -, hk, -, -, hd⟩ :=
    completeLicense_key_check (demoEnv zeroLicense) (demoLicense [] "hello" ["email"]) "c1"
      demoServer _ demoCipher_lawful rfl
  rw [hk] at hd
  exact hd

/-- C10: when `completeLicense` succeeds, whichever way the user key was
obtained, `Encryption.UserKey.Algorithm` is the SHA-256 identifier,
`Encryption.ContentKey.Algorithm` is the AES-256-CBC identifier and
`ContentId` is the requested content id. -/
theorem completeLicense_algorithms_and_content_id {σ : Type} (env : Env) (l : License)
    (key : String) (s : Server σ) (r : License)
    (h : completeLicense env l key s = .ok r) :
    r.Encryption.UserKey.Algorithm = "http://www.w3.org/2001/04/xmlenc#sha256" ∧
    r.Encryption.ContentKey.Algorithm = "http://www.w3.org/2001/04/xmlenc#aes256-cbc" ∧
    r.ContentId = key := by
  obtain ⟨c, u, sig, res, -, -, -, -, -, hr⟩ := completeLicense_ok env l key s r h
  rw [hr]
  exact ⟨rfl, rfl, rfl⟩

/-- Witness for C10: a request with a raw user key. -/
theorem completeLicense_algorithms_and_content_id_witness :
    ∃ r, completeLicense (demoEnv zeroLicense) (demoLicense demoKey "" []) "c1" demoServer
        = .ok r ∧
      r.Encryption.UserKey.Algorithm = "http://www.w3.org/2001/04/xmlenc#sha256" ∧
      r.Encryption.ContentKey.Algorithm = "http://www.w3.org/2001/04/xmlenc#aes256-cbc" ∧
      r.ContentId = "c1" :=
  ⟨_, rfl, completeLicense_algorithms_and_content_id (demoEnv zeroLicense)
    (demoLicense demoKey "" []) "c1" demoServer _ rfl⟩

/-- C4 as stated fails when a field is named twice: with `Encrypted` equal to
`email, email` (both name the string field `Email`) `encryptFields` succeeds
under a lawful cipher, but the field was encrypted twice, so decoding and
decrypting it once gives the base64 text of the first ciphertext and not the
value `user@example.com` the field had before the call. -/
theorem encryptFields_repeated_name_counterexample :
    demoCipher.Lawful ∧
    (∀ name ∈ ["email", "email"],
      (demoLicense [] "" ["email", "email"]).User.Strings.lookup (asciiTitle name)
        = some "user@example.com") ∧
    ∃ l1, encryptFields (demoEnv zeroLicense) 1 (demoLicense [] "" ["email", "email"]) demoKey
        = .ok l1 ∧
      ∃ s c, l1.User.Strings.lookup "Email" = some s ∧ DecodeString s = some c ∧
        demoCipher.decrypt demoKey c ≠ some (stringBytes "user@example.com") ∧
        demoCipher.decrypt demoKey c
          = some (stringBytes (EncodeToString
              (demoCipher.encrypt [2] demoKey (stringBytes "user@example.com")))) := by
  refine ⟨demoCipher_lawful, by decide, _, rfl, _, _, rfl, rfl, by decide, by decide⟩

/-- C4, amended: if every flagged name names a string field of the profile
and no field is named more than once (names compared after `strings.Title`),
then after `encryptFields` returns without error each flagged field holds
the base64 text of a ciphertext that decrypts under the user key to the value
the field had before the call, every field that is not flagged is unchanged,
and so is the rest of the license. -/
theorem encryptFields_distinct_names (env : Env) (n : Nat) (l l1 : License) (key : Bytes)
    (hlaw : env.cipher.Lawful)
    (hstr : ∀ name ∈ l.User.Encrypted, env.Title name ≠ "Encrypted" ∧
      ∃ v, l.User.Strings.lookup (env.Title name) = some v)
    (hnodup : (l.User.Encrypted.map env.Title).Nodup)
    (h : encryptFields env n l key = .ok l1) :
    (∀ f v, l.User.Strings.lookup f = some v → f ∈ l.User.Encrypted.map env.Title →
      ∃ s c, l1.User.Strings.lookup f = some s ∧ DecodeString s = some c ∧
        env.cipher.decrypt key c = some (stringBytes v)) ∧
    (∀ f, f ∉ l.User.Encrypted.map env.Title →
      l1.User.Strings.lookup f = l.User.Strings.lookup f) ∧
    l1.User.Encrypted = l.User.Encrypted ∧
    { l1 with User := l.User } = l := by
  unfold encryptFields at h
  split at h
  · rename_i u hu
    simp only [Outcome.ok.injEq] at h
    subst h
    have hspec := encryptFieldsLoop_spec env key l.User.Encrypted n l.User u hstr hnodup hu
    refine ⟨?_, ?_, ?_, rfl⟩
    · intro f v hv hf
      obtain ⟨hk, v2, iv, hv2, hu2⟩ := (hspec f).1 hf
      rw [hv] at hv2
      cases hv2
      exact ⟨_, _, hu2, DecodeString_EncodeToString _, hlaw _ _ _ hk⟩
    · intro f hf
      exact (hspec f).2 hf
    · exact encryptFieldsLoop_encrypted env key _ n _ _ hu
  · simp at h
  · simp at h

/-- Witness for the amended C4: the fields `email` and `name` flagged once
each; `Email` decrypts to its old value and `Id` is unchanged. -/
theorem encryptFields_distinct_names_witness :
    ∃ l1, encryptFields (demoEnv zeroLicense) 1 (demoLicense [] "" ["email", "name"]) demoKey
        = .ok l1 ∧
      (∃ s c, l1.User.Strings.lookup "Email" = some s ∧ DecodeString s = some c ∧
        demoCipher.decrypt demoKey c = some (stringBytes "user@example.com")) ∧
      l1.User.Strings.lookup "Id" = some "u1" := by
  have hstr : ∀ name ∈ (demoLicense [] "" ["email", "name"]).User.Encrypted,
      (demoEnv zeroLicense).Title name ≠ "Encrypted" ∧
        ∃ v, (demoLicense [] "" ["email", "name"]).User.Strings.lookup
          ((demoEnv zeroLicense).Title name) = some v := by
    intro name hn
    have hn2 : name = "email" ∨ name = "name" := by simpa [demoLicense] using hn
    rcases hn2 with rfl | rfl
    · exact ⟨by decide, "user@example.com", by decide⟩
    · exact ⟨by decide, "Ann", by decide⟩
  refine ⟨_, rfl, ?_, ?_⟩
  · exact (encryptFields_distinct_names (demoEnv zeroLicense) 1
      (demoLicense [] "" ["email", "name"]) _ demoKey demoCipher_lawful
      hstr (by decide) rfl).1 "Email" "user@example.com" (by decide) (by decide)
  · exact (encryptFields_distinct_names (demoEnv zeroLicense) 1
      (demoLicense [] "" ["email", "name"]) _ demoKey demoCipher_lawful
      hstr (by decide) rfl).2.1 "Id" (by decide)

/-- C5, evaluated at a request whose `Encrypted` list names `nickname`, which
matches no field of the profile: with a valid key `encryptFields` does not
return an error, it panics in `reflect.Value.Set`, and so does
`completeLicense`. -/
theorem encryptFields_unknown_name_panics :
    getField (demoEnv zeroLicense) (demoLicense demoKey "" ["nickname"]).User "nickname"
      = .invalid ∧
    encryptFields (demoEnv zeroLicense) 1 (demoLicense demoKey "" ["nickname"]) demoKey
      = .panic "reflect: call of reflect.Value.Set on zero Value" ∧
    completeLicense (demoEnv zeroLicense) (demoLicense demoKey "" ["nickname"]) "c1" demoServer
      = .panic "reflect: call of reflect.Value.Set on zero Value" := by
  refine ⟨by decide, by decide, by decide⟩

/-- With a refused key `encryptFields` fails unless no name is flagged. -/
theorem encryptFields_bad_key (env : Env) (n : Nat) (l : License) (key : Bytes)
    (hk : env.cipher.keyLenOk key.length = false) :
    encryptFields env n l key =
      if l.User.Encrypted = [] then .ok l else .error "crypto: invalid key size" := by
  unfold encryptFields
  rw [encryptFieldsLoop_bad_key _ _ _ _ _ hk]
  by_cases hnil : l.User.Encrypted = []
  · simp [hnil]
  · simp [hnil]

/-- With a refused key `buildKeyCheck` fails. -/
theorem buildKeyCheck_bad_key (env : Env) (n : Nat) (l : License) (key : Bytes)
    (hk : env.cipher.keyLenOk key.length = false) :
    buildKeyCheck env n l key = .error "crypto: invalid key size" := by
  simp [buildKeyCheck, Cipher.Encrypt, hk]

/-- C6: if the cipher call that wraps the content key under the user key
fails, `completeLicense` returns an error, so it never returns success with
a `ContentKey.Value` left by a failed encryption.  The function `encryptKey`
drops the error; it is the cipher call of `encryptFields` or of
`buildKeyCheck`, made with the same key, that reports it. -/
theorem completeLicense_fails_when_wrapping_fails {σ : Type} (env : Env) (l : License)
    (key : String) (s : Server σ) (c : Content) (e : String)
    (hc : s.IndexGet key = .ok c)
    (hfail : env.cipher.Encrypt (env.iv 0)
      (resolveUserKey env { env.Prepare l with ContentId := key }).1 c.EncryptionKey
        = .error e) :
    (∃ e1, completeLicense env l key s = .error e1) ∧
    ∀ r, completeLicense env l key s ≠ .ok r := by
  rw [Encrypt_error_iff] at hfail
  obtain ⟨hk, -⟩ := hfail
  have herr : ∃ e1, completeLicense env l key s = .error e1 := by
    unfold completeLicense
    simp only [hc]
    rw [encryptFields_bad_key _ _ _ _ hk]
    by_cases hnil : (wrapContentKey env c
        (resolveUserKey env { env.Prepare l with ContentId := key }).1
        (resolveUserKey env { env.Prepare l with ContentId := key }).2).User.Encrypted = []
    · rw [if_pos hnil]
      simp only [buildKeyCheck_bad_key _ _ _ _ hk]
      exact ⟨_, rfl⟩
    · rw [if_neg hnil]
      exact ⟨_, rfl⟩
  refine ⟨herr, ?_⟩
  intro r hr
  obtain ⟨e1, he1⟩ := herr
  rw [he1] at hr
  cases hr

/-- Witness for C6: a raw user key of three bytes, which the cipher
refuses. -/
theorem completeLicense_fails_when_wrapping_fails_witness :
    (demoEnv zeroLicense).cipher.Encrypt ((demoEnv zeroLicense).iv 0) [1, 2, 3] [7, 8, 9]
      = .error "crypto: invalid key size" ∧
    ∃ e1, completeLicense (demoEnv zeroLicense) (demoLicense [1, 2, 3] "hello" ["email"]) "c1"
      demoServer = .error e1 :=
  ⟨rfl,
    (completeLicense_fails_when_wrapping_fails (demoEnv zeroLicense)
      (demoLicense [1, 2, 3] "hello" ["email"]) "c1" demoServer
      { EncryptionKey := [7, 8, 9], Location := "c1.epub" } "crypto: invalid key size"
      rfl rfl).1⟩

/-- C7, evaluated at a request for the content `c1`: the license written to
`META-INF/license.lcpl` is the signed license with the `publication` link
added after `signLicense` ran, so apart from `Signature` it differs from the
license value that was signed, and the signature it carries is the one made
over the license without that link. -/
theorem packaged_license_differs_from_signed_license :
    ∃ signed embedded sig res,
      completeLicense (demoEnv (demoLicense [] "hello" [])) (demoLicense [] "hello" []) "c1"
        demoServer = .ok signed ∧
      (demoEnv (demoLicense [] "hello" [])).NewSigner demoServer.Certificate = .ok sig ∧
      (demoEnv (demoLicense [] "hello" [])).Sign sig { signed with Signature := none } = .ok res ∧
      signed.Signature = some res ∧
      (GenerateProtectedPublication (demoEnv (demoLicense [] "hello" [])) demoServer []
        demoRequest).reply =
          .publication "application/epub+zip" "attachment; filename=\"c1.epub\""
            [("mimetype", [80, 75]),
             ("META-INF/license.lcpl", (demoEnv (demoLicense [] "hello" [])).Encode embedded)] ∧
      embedded.Signature = some res ∧
      signed.Links = some [] ∧
      embedded.Links = some [("publication",
        { Href := "http://example.com/c1.epub", Typ := "application/epub+zip" })] ∧
      { embedded with Signature := none } ≠ { signed with Signature := none } := by
  refine ⟨_, _, _, _, rfl, rfl, rfl, rfl, rfl, rfl, rfl, rfl, by decide⟩

/-- C8: in both handlers `Licenses().Add` is called at most once, and only
after request decoding, the lookups and archive opening (packaging path) and
`completeLicense` have all succeeded; when decoding fails the reply is an
error with status 400, and when a lookup, the archive opening or
`completeLicense` returns an error the reply is an error with status 500; in
each of these cases the license store is unchanged, `Add` is not called and
no archive is written. -/
theorem handlers_persist_only_after_success {σ : Type} (env : Env) (s : Server σ) (store : σ)
    (r : Request) :
    ((GenerateLicense env s store r).added.length ≤ 1 ∧
      ((GenerateLicense env s store r).added ≠ [] →
        ∃ lic0 lic, decodeJsonLicense env r = .ok lic0 ∧
          completeLicense env lic0 r.key s = .ok lic ∧
          (GenerateLicense env s store r).added = [lic]) ∧
      (∀ e, decodeJsonLicense env r = .error e →
        (GenerateLicense env s store r).licenses = store ∧
        (GenerateLicense env s store r).added = [] ∧
        (GenerateLicense env s store r).reply = .error 400 e) ∧
      (∀ lic0 e, decodeJsonLicense env r = .ok lic0 →
        completeLicense env lic0 r.key s = .error e →
        (GenerateLicense env s store r).licenses = store ∧
        (GenerateLicense env s store r).added = [] ∧
        (GenerateLicense env s store r).reply = .error 500 e)) ∧
    ((GenerateProtectedPublication env s store r).added.length ≤ 1 ∧
      ((GenerateProtectedPublication env s store r).added ≠ [] →
        ∃ lic0 opened lic1, decodeJsonLicense env r = .ok lic0 ∧
          openPublication env s r.key = .ok opened ∧
          completeLicense env lic0 r.key s = .ok lic1) ∧
      (∀ e, decodeJsonLicense env r = .error e →
        (GenerateProtectedPublication env s store r).licenses = store ∧
        (GenerateProtectedPublication env s store r).added = [] ∧
        (GenerateProtectedPublication env s store r).reply = .error 400 e) ∧
      (∀ lic0 e, decodeJsonLicense env r = .ok lic0 →
        openPublication env s r.key = .error e →
        (GenerateProtectedPublication env s store r).licenses = store ∧
        (GenerateProtectedPublication env s store r).added = [] ∧
        (GenerateProtectedPublication env s store r).reply = .error 500 e) ∧
      (∀ lic0 opened e, decodeJsonLicense env r = .ok lic0 →
        openPublication env s r.key = .ok opened →
        completeLicense env lic0 r.key s = .error e →
        (GenerateProtectedPublication env s store r).licenses = store ∧
        (GenerateProtectedPublication env s store r).added = [] ∧
        (GenerateProtectedPublication env s store r).reply = .error 500 e)) := by
  constructor
  · unfold GenerateLicense
    cases hd : decodeJsonLicense env r with
    | error e => simp
    | ok lic0 =>
      cases hc : completeLicense env lic0 r.key s with
      | error e => simp [hc]; all_goals (intros; subst_vars; simp_all)
      | panic msg => simp [hc]; all_goals (intros; subst_vars; simp_all)
      | ok lic =>
        rcases ha : s.LicensesAdd store lic with ⟨store1, _ | e⟩ <;> simp [hc, ha]
        all_goals (intros; subst_vars; simp_all)
  · unfold GenerateProtectedPublication
    cases hd : decodeJsonLicense env r with
    | error e => simp
    | ok lic0 =>
      cases ho : openPublication env s r.key with
      | error e => simp
      | ok opened =>
        obtain ⟨item, content, ep⟩ := opened
        cases hc : completeLicense env lic0 r.key s with
        | error e => simp [hc]; all_goals (intros; subst_vars; simp_all)
        | panic msg => simp [hc]; all_goals (intros; subst_vars; simp_all)
        | ok lic1 =>
          cases hp : attachPublication lic1 item r.key with
          | error e => simp [hc, hp]; all_goals (intros; subst_vars; simp_all)
          | panic msg => simp [hc, hp]; all_goals (intros; subst_vars; simp_all)
          | ok lic =>
            rcases ha : s.LicensesAdd store lic with ⟨store1, _ | e⟩ <;> simp [hc, hp, ha]
            all_goals (intros; subst_vars; simp_all)

/-- C9: when `GenerateLicense` serves a request successfully, the license
passed to `Licenses().Add` is the completed license, which carries the
ciphertext of its `Id` in `Encryption.UserKey.Check`, and the license encoded
into the response is that same license with `Encryption.UserKey.Check` set to
nil and every other field unchanged. -/
theorem GenerateLicense_response_strips_check {σ : Type} (env : Env) (s : Server σ)
    (store : σ) (r : Request) (ct cd : String) (body : Bytes)
    (h : (GenerateLicense env s store r).reply = .license ct cd body) :
    ∃ lic0 lic n,
      decodeJsonLicense env r = .ok lic0 ∧
      completeLicense env lic0 r.key s = .ok lic ∧
      (GenerateLicense env s store r).added = [lic] ∧
      (GenerateLicense env s store r).licenses = (s.LicensesAdd store lic).1 ∧
      lic.Encryption.UserKey.Check =
        env.cipher.encrypt (env.iv n)
          (resolveUserKey env { env.Prepare lic0 with ContentId := r.key }).1
          (stringBytes lic.Id) ∧
      body = env.Encode { lic with Encryption := { lic.Encryption with
        UserKey := { lic.Encryption.UserKey with Check := [] } } } := by
  unfold GenerateLicense at h ⊢
  cases hd : decodeJsonLicense env r with
  | error e => simp [hd] at h
  | ok lic0 =>
    cases hc : completeLicense env lic0 r.key s with
    | error e => simp [hd, hc] at h
    | panic msg => simp [hd, hc] at h
    | ok lic =>
      obtain ⟨c, u, sig, res, -, -, -, -, -, hr⟩ := completeLicense_ok env lic0 r.key s lic hc
      rcases ha : s.LicensesAdd store lic with ⟨store1, _ | e⟩
      · simp only [hd, hc, ha, Reply.license.injEq] at h
        refine ⟨lic0, lic, 1 + (env.Prepare lic0).User.Encrypted.length, rfl, hc, ?_, ?_,
          ?_, h.2.2.symm⟩
        · simp [hc, ha]
        · simp [hc, ha]
        · rw [hr]
      · simp [hd, hc, ha] at h

/-- Witness for C9: a request for `c1` with the passphrase `hello`. -/
theorem GenerateLicense_response_strips_check_witness :
    ∃ lic, (GenerateLicense (demoEnv (demoLicense [] "hello" ["email"])) demoServer []
        demoRequest).added = [lic] ∧
      lic.Encryption.UserKey.Check ≠ [] ∧
      (GenerateLicense (demoEnv (demoLicense [] "hello" ["email"])) demoServer []
        demoRequest).reply =
        .license "application/vnd.readium.lcp.license.1-0+json"
          "attachment; filename=\"license.lcpl\""
          ((demoEnv (demoLicense [] "hello" ["email"])).Encode
            { lic with Encryption := { lic.Encryption with
              UserKey := { lic.Encryption.UserKey with Check := [] } } }) := by
  obtain ⟨lic0, lic, n, -, -, hadd, -, -, hbody⟩ :=
    GenerateLicense_response_strips_check (demoEnv (demoLicense [] "hello" ["email"]))
      demoServer [] demoRequest _ _ _ rfl
  refine ⟨lic, hadd, ?_, ?_⟩
  · have h2 : (GenerateLicense (demoEnv (demoLicense [] "hello" ["email"])) demoServer []
        demoRequest).added = [lic] := hadd
    have h3 := (List.cons.inj (h2.symm.trans rfl)).1
    rw [h3]
    decide
  · rw [← hbody]
    rfl

end LcpServer
